import Mathlib

/-
Verification of the bootstrap/configuration layer of the tilenol window
manager (src/tilenol/config.py and src/tilenol/main.py), as a shallow
embedding: dictionaries become association lists, Python list mutation
becomes explicit list values, dynamic imports become lookups in an
explicit module environment, and code that can raise returns Except.
-/

set_option maxHeartbeats 1000000

namespace Tilenol

/-! ## Python list semantics -/

/-- The slot at which Python `list.insert(i, x)` places `x`: a negative
index counts from the end of the list, and the result is clamped into the
list's bounds. -/
def pyInsertPos {α : Type} (l : List α) (i : Int) : Nat :=
  (max 0 (min (if i < 0 then i + l.length else i) (l.length : Int))).toNat

/-- Python `list.insert(i, x)`. -/
def pyInsert {α : Type} (l : List α) (i : Int) (x : α) : List α :=
  l.take (pyInsertPos l i) ++ x :: l.drop (pyInsertPos l i)

/-! ## Config.init_extensions (config.py lines 84-88) -/

/-- Python `os.path.join(p, 'tilenol', 'ext')` for the shapes of path that
arise here. -/
def joinExt (p : String) : String :=
  if p = "" then "tilenol/ext"
  else if p.toList.getLast? = some '/' then p ++ "tilenol/ext"
  else p ++ "/tilenol/ext"

/-- The fixed system-wide site-extension directory of config.py line 88. -/
def siteExtDir : String := "/usr/share/tilenol/site-extensions"

/-- The loop of `Config.init_extensions`:
`for i, path in enumerate(self.config.dirs): ext.__path__.insert(i, os.path.join(path, 'tilenol', 'ext'))`. -/
def seedLoop (i : Nat) (dirs : List String) (path : List String) : List String :=
  match dirs with
  | [] => path
  | d :: ds => seedLoop (i + 1) ds (pyInsert path (Int.ofNat i) (joinExt d))

/-- `Config.init_extensions`, acting on the mutable search-path list
`ext.__path__` (passed in as `extPath`, returned updated): the loop above
followed by `ext.__path__.insert(-1, '/usr/share/tilenol/site-extensions')`. -/
def init_extensions (configDirs : List String) (extPath : List String) : List String :=
  pyInsert (seedLoop 0 configDirs extPath) (-1) siteExtDir

theorem drop_pred_eq_getLast {α : Type} (l : List α) (h : l ≠ []) :
    l.drop (l.length - 1) = [l.getLast h] := by
  have h2 := List.dropLast_append_getLast h
  calc l.drop (l.length - 1)
      = (l.dropLast ++ [l.getLast h]).drop (l.length - 1) := by rw [h2]
    _ = [l.getLast h] := by
        have hl : l.length - 1 = l.dropLast.length := by
          simp [List.length_dropLast]
        rw [hl, List.drop_left]

theorem pyInsert_nat {α : Type} (l : List α) (k : Nat) (x : α) (h : k ≤ l.length) :
    pyInsert l (Int.ofNat k) x = l.take k ++ x :: l.drop k := by
  have hp : pyInsertPos l (Int.ofNat k) = k := by
    unfold pyInsertPos
    simp only [Int.ofNat_eq_coe]
    rw [if_neg (by omega : ¬ ((k : Int) < 0))]
    omega
  rw [pyInsert, hp]

theorem pyInsert_neg_one {α : Type} (l : List α) (x : α) (h : l ≠ []) :
    pyInsert l (-1) x = l.dropLast ++ x :: [l.getLast h] := by
  have hn : 1 ≤ l.length := by
    cases l with
    | nil => exact absurd rfl h
    | cons a t => simp
  have hp : pyInsertPos l (-1) = l.length - 1 := by
    unfold pyInsertPos
    rw [if_pos (by omega : (-1 : Int) < 0)]
    omega
  rw [pyInsert, hp]
  congr 1
  · exact (List.dropLast_eq_take l).symm
  · congr 1
    exact drop_pred_eq_getLast l h

theorem seedLoop_append (ds : List String) :
    ∀ l₁ l₂ : List String,
      seedLoop l₁.length ds (l₁ ++ l₂) = l₁ ++ ds.map joinExt ++ l₂ := by
  induction ds with
  | nil => intro l₁ l₂; simp [seedLoop]
  | cons d ds ih =>
    intro l₁ l₂
    rw [seedLoop]
    have hins : pyInsert (l₁ ++ l₂) (Int.ofNat l₁.length) (joinExt d)
        = (l₁ ++ [joinExt d]) ++ l₂ := by
      rw [pyInsert_nat _ _ _ (by simp)]
      rw [List.take_left, List.drop_left]
      simp
    rw [hins]
    have hlen : l₁.length + 1 = (l₁ ++ [joinExt d]).length := by simp
    rw [hlen, ih (l₁ ++ [joinExt d]) l₂]
    simp

theorem init_extensions_eq (dirs l : List String) (h : l ≠ []) :
    init_extensions dirs l
      = dirs.map joinExt ++ l.dropLast ++ siteExtDir :: [l.getLast h] := by
  unfold init_extensions
  have hseed : seedLoop 0 dirs l = dirs.map joinExt ++ l := by
    have := seedLoop_append dirs [] l
    simpa using this
  rw [hseed]
  have hne : dirs.map joinExt ++ l ≠ [] := by
    intro hc
    rcases List.append_eq_nil.mp hc with ⟨_, h2⟩
    exact h h2
  rw [pyInsert_neg_one _ _ hne]
  have hlast : (dirs.map joinExt ++ l).getLast hne = l.getLast h :=
    List.getLast_append' (dirs.map joinExt) l h
  have hdrop : (dirs.map joinExt ++ l).dropLast = dirs.map joinExt ++ l.dropLast := by
    rw [List.dropLast_append]
    simp [List.isEmpty_iff, h]
  rw [hlast, hdrop]

theorem getLast_eq_of_eq {α : Type} {l m : List α} (e : l = m) (hl : l ≠ []) (hm : m ≠ []) :
    l.getLast hl = m.getLast hm := by
  subst e; rfl

theorem init_extensions_twice (dirs l : List String) (h : l ≠ []) :
    init_extensions dirs (init_extensions dirs l)
      = dirs.map joinExt ++ dirs.map joinExt ++ l.dropLast
        ++ siteExtDir :: siteExtDir :: [l.getLast h] := by
  have hX : init_extensions dirs l
      = (dirs.map joinExt ++ l.dropLast ++ [siteExtDir]) ++ [l.getLast h] := by
    rw [init_extensions_eq dirs l h]; simp
  have hne : init_extensions dirs l ≠ [] := by rw [hX]; simp
  rw [init_extensions_eq dirs (init_extensions dirs l) hne]
  have hd : (init_extensions dirs l).dropLast
      = dirs.map joinExt ++ l.dropLast ++ [siteExtDir] := by
    rw [hX, List.dropLast_concat]
  have hg : (init_extensions dirs l).getLast hne = l.getLast h := by
    rw [getLast_eq_of_eq hX hne (by simp)]
    simp [List.getLast_append_singleton]
  rw [hd, hg]
  simp

/-- C6: 〈corrected〉 After `Config.init_extensions` runs once on a nonempty
initial search path, the path is: one entry per configuration directory
(most-specific first, each joined with `tilenol/ext`), then the original
path entries with the system-wide site-extension directory
`/usr/share/tilenol/site-extensions` inserted immediately before the final
original entry — so the site directory is second-to-last, and the last
entry of the path is the last original (bundled package) entry, not the
site directory. -/
theorem C6_thm (dirs l : List String) (h : l ≠ []) :
    init_extensions dirs l
      = dirs.map joinExt ++ l.dropLast ++ siteExtDir :: [l.getLast h] :=
  init_extensions_eq dirs l h

/-- C6 witness: the amended statement evaluated at a concrete input. -/
theorem C6_witness :
    (["/b"] : List String) ≠ [] ∧
    init_extensions ["/c"] ["/b"]
      = ["/c"].map joinExt ++ (["/b"] : List String).dropLast
        ++ siteExtDir :: [(["/b"] : List String).getLast (by decide)] :=
  ⟨by decide, C6_thm ["/c"] ["/b"] (by decide)⟩

/-- C6 counterexample: the claim as stated is false — the site-extension
directory is not the last entry of the seeded path; the original (bundled)
path entry stays last. -/
theorem C6_cex :
    init_extensions ["/c"] ["/b"]
      = ["/c/tilenol/ext", "/usr/share/tilenol/site-extensions", "/b"] ∧
    (init_extensions ["/c"] ["/b"]).getLast? ≠ some siteExtDir := by
  constructor
  · rfl
  · decide

/-- C5: 〈corrected〉 `Config.init_extensions` is not idempotent: a second
call prepends one fresh `tilenol/ext` entry per configuration directory
again and inserts the site-extension directory again (before the last
entry), so after two calls the configuration-directory entries and the
site directory each occur twice — repeated bootstrap-style calls do
duplicate search-path entries. -/
theorem C5_thm (dirs l : List String) (h : l ≠ []) :
    init_extensions dirs (init_extensions dirs l)
      = dirs.map joinExt ++ dirs.map joinExt ++ l.dropLast
        ++ siteExtDir :: siteExtDir :: [l.getLast h] :=
  init_extensions_twice dirs l h

/-- C5 witness: the duplication evaluated at a concrete input. -/
theorem C5_witness :
    (["/b"] : List String) ≠ [] ∧
    init_extensions ["/c"] (init_extensions ["/c"] ["/b"])
      = ["/c"].map joinExt ++ ["/c"].map joinExt
        ++ (["/b"] : List String).dropLast
        ++ siteExtDir :: siteExtDir :: [(["/b"] : List String).getLast (by decide)] :=
  ⟨by decide, C5_thm ["/c"] ["/b"] (by decide)⟩

/-- C5 counterexample: calling `Config.init_extensions` a second time does
not leave the search path equal to the path after the first call. -/
theorem C5_cex :
    init_extensions ["/c"] (init_extensions ["/c"] ["/b"])
      ≠ init_extensions ["/c"] ["/b"] := by
  decide

/-! ## Tilenol.loop (main.py lines 169-174) -/

/-- What one run of the event loop produces: the dispatcher state it ends
in, the events passed to `dispatch` (in order), and the events for which
`log.exception("Error handling event %r", i)` fired (a log entry is
recorded here as the event it references). -/
structure LoopOut (σ Event : Type) where
  state : σ
  dispatched : List Event
  logs : List Event
  deriving Repr, DecidableEq

/-- Embeds `Tilenol.loop`: for each event of the stream, call
`self.dispatcher.dispatch(i)` inside try/except; a raising dispatch is
logged with the event and the loop continues with the next event.
`dispatch` is the external dispatcher, modelled as a state transformer
that either returns the updated state or raises. -/
def loop {σ Event Err : Type} (dispatch : σ → Event → Except Err σ) (s : σ) :
    List Event → LoopOut σ Event
  | [] => ⟨s, [], []⟩
  | e :: es =>
    match dispatch s e with
    | .ok s' =>
      let r := loop dispatch s' es
      ⟨r.state, e :: r.dispatched, r.logs⟩
    | .error _ =>
      let r := loop dispatch s es
      ⟨r.state, e :: r.dispatched, e :: r.logs⟩

theorem loop_append {σ Event Err : Type} (d : σ → Event → Except Err σ)
    (s : σ) (l₁ l₂ : List Event) :
    loop d s (l₁ ++ l₂)
      = ⟨(loop d (loop d s l₁).state l₂).state,
         (loop d s l₁).dispatched ++ (loop d (loop d s l₁).state l₂).dispatched,
         (loop d s l₁).logs ++ (loop d (loop d s l₁).state l₂).logs⟩ := by
  induction l₁ generalizing s with
  | nil => simp [loop]
  | cons e es ih =>
    rw [List.cons_append, loop, loop]
    cases d s e with
    | ok s' => simp [ih s']
    | error err => simp [ih s]

theorem loop_dispatched {σ Event Err : Type} (d : σ → Event → Except Err σ)
    (s : σ) (es : List Event) :
    (loop d s es).dispatched = es := by
  induction es generalizing s with
  | nil => rfl
  | cons e es ih =>
    rw [loop]
    cases d s e with
    | ok s' => simp [ih s']
    | error err => simp [ih s]

/-- C3: 〈confirmed〉 Fault isolation of `Tilenol.loop`: if dispatching the
event at some position of the stream raises, then the run produces exactly
one log entry referencing that event (between the logs of the events
before it and those after it), every event of the stream — including the
one right after the failing one — is still dispatched in order, and the
failing event's effect is dropped and never retried: the rest of the
stream is processed from the state the loop had before the failing event. -/
theorem C3_thm {σ Event Err : Type} (dispatch : σ → Event → Except Err σ)
    (s : σ) (l₁ : List Event) (e : Event) (l₂ : List Event)
    (hfail : ∃ err, dispatch (loop dispatch s l₁).state e = .error err) :
    (loop dispatch s (l₁ ++ e :: l₂)).logs
        = (loop dispatch s l₁).logs
          ++ e :: (loop dispatch (loop dispatch s l₁).state l₂).logs
      ∧ (loop dispatch s (l₁ ++ e :: l₂)).dispatched = l₁ ++ e :: l₂
      ∧ (loop dispatch s (l₁ ++ e :: l₂)).state
        = (loop dispatch (loop dispatch s l₁).state l₂).state := by
  obtain ⟨err, herr⟩ := hfail
  have hstep : loop dispatch (loop dispatch s l₁).state (e :: l₂)
      = ⟨(loop dispatch (loop dispatch s l₁).state l₂).state,
         e :: (loop dispatch (loop dispatch s l₁).state l₂).dispatched,
         e :: (loop dispatch (loop dispatch s l₁).state l₂).logs⟩ := by
    rw [loop, herr]
  refine ⟨?_, ?_, ?_⟩
  · rw [loop_append, hstep]
  · rw [loop_append, hstep]
    simp [loop_dispatched]
  · rw [loop_append, hstep]

/-- A concrete dispatcher used to witness C3: it raises exactly on
event `0` and otherwise adds the event number to the state. -/
def wDispatch : Nat → Nat → Except Unit Nat :=
  fun s e => if e = 0 then .error () else .ok (s + e)

/-- C3 witness: the fault-isolation theorem applied to the concrete
dispatcher `wDispatch` on the stream `[1, 0, 2]`, whose middle event
fails. -/
theorem C3_witness :
    (∃ err, wDispatch (loop wDispatch 5 [1]).state 0 = .error err) ∧
    ((loop wDispatch 5 ([1] ++ 0 :: [2])).logs
        = (loop wDispatch 5 [1]).logs
          ++ 0 :: (loop wDispatch (loop wDispatch 5 [1]).state [2]).logs
      ∧ (loop wDispatch 5 ([1] ++ 0 :: [2])).dispatched = [1] ++ 0 :: [2]
      ∧ (loop wDispatch 5 ([1] ++ 0 :: [2])).state
        = (loop wDispatch (loop wDispatch 5 [1]).state [2]).state) :=
  ⟨⟨(), rfl⟩, C3_thm wDispatch 5 [1] 0 [2] ⟨(), rfl⟩⟩

/-! ## Tilenol.catch_windows (main.py lines 127-153) -/

/-- X window class, as reported by GetWindowAttributes. -/
inductive WClass
  | inputOnly
  | inputOutput
  | copyFromParent
  deriving Repr, DecidableEq

/-- X map state, as reported by GetWindowAttributes. -/
inductive MapState
  | unmapped
  | unviewable
  | viewable
  deriving Repr, DecidableEq

/-- One child of the root window together with the replies the server
gives for it: GetWindowAttributes (class, override_redirect, map_state)
and GetGeometry (x, y, width, height, border_width). -/
structure WinAttr where
  wid : Nat
  wclass : WClass
  override_redirect : Bool
  map_state : MapState
  x : Int
  y : Int
  width : Nat
  height : Nat
  border_width : Nat
  deriving Repr, DecidableEq

/-- The synthetic events Tilenol.catch_windows fabricates: a
CreateNotify-shaped record and a MapRequest-shaped record. -/
inductive SynthEvent
  | createNotify (window parent : Nat) (x y : Int)
      (width height border_width : Nat) (override_redirect : Bool)
  | mapRequest (parent window : Nat)
  deriving Repr, DecidableEq

/-- The `window` field of a synthetic event. -/
def SynthEvent.window : SynthEvent → Nat
  | .createNotify w _ _ _ _ _ _ _ => w
  | .mapRequest _ w => w

/-- The events handed to the dispatcher for one window that passed the
skip checks: handle_CreateNotifyEvent always, then handle_MapRequestEvent
when the map state is not Unmapped and the window is not
override-redirect (main.py lines 137-153). -/
def emitWindow (root : Nat) (w : WinAttr) : List SynthEvent :=
  SynthEvent.createNotify w.wid root w.x w.y w.width w.height
      w.border_width w.override_redirect ::
    (if w.map_state ≠ MapState.unmapped ∧ w.override_redirect = false
     then [SynthEvent.mapRequest root w.wid]
     else [])

/-- One iteration of the catch_windows loop: skip the root window and
windows already known to the dispatcher, skip InputOnly windows, emit for
the rest. -/
def processWindow (root : Nat) (known : List Nat) (w : WinAttr) : List SynthEvent :=
  if w.wid = root ∨ w.wid ∈ known then []
  else if w.wclass = WClass.inputOnly then []
  else emitWindow root w

/-- Embeds `Tilenol.catch_windows`: iterate the children of the root
window returned by QueryTree and collect the synthetic events handed to
the dispatcher, in order. -/
def catch_windows (root : Nat) (known : List Nat) (children : List WinAttr) :
    List SynthEvent :=
  children.flatMap (processWindow root known)

theorem processWindow_window {root : Nat} {known : List Nat} {w : WinAttr}
    {ev : SynthEvent} (h : ev ∈ processWindow root known w) :
    ev.window = w.wid := by
  unfold processWindow at h
  split at h
  · simp at h
  · split at h
    · simp at h
    · unfold emitWindow at h
      rw [List.mem_cons] at h
      rcases h with h | h
      · subst h; rfl
      · by_cases hc : w.map_state ≠ MapState.unmapped ∧ w.override_redirect = false
        · rw [if_pos hc] at h
          simp only [List.mem_singleton] at h
          subst h; rfl
        · rw [if_neg hc] at h
          simp at h

theorem processWindow_ne_nil_iff {root : Nat} {known : List Nat} {w : WinAttr}
    {ev : SynthEvent} (h : ev ∈ processWindow root known w) :
    ¬ (w.wid = root ∨ w.wid ∈ known) ∧ w.wclass ≠ WClass.inputOnly
      ∧ ev ∈ emitWindow root w := by
  unfold processWindow at h
  split at h
  · simp at h
  · split at h
    · simp at h
    · exact ⟨by assumption, by assumption, h⟩

theorem mapRequest_mem_emitWindow {root : Nat} {w : WinAttr} {p wid : Nat}
    (h : SynthEvent.mapRequest p wid ∈ emitWindow root w) :
    p = root ∧ wid = w.wid
      ∧ w.map_state ≠ MapState.unmapped ∧ w.override_redirect = false := by
  unfold emitWindow at h
  rw [List.mem_cons] at h
  rcases h with h | h
  · exact absurd h (by simp)
  · by_cases hc : w.map_state ≠ MapState.unmapped ∧ w.override_redirect = false
    · rw [if_pos hc] at h
      simp only [List.mem_singleton, SynthEvent.mapRequest.injEq] at h
      exact ⟨h.1, h.2, hc⟩
    · rw [if_neg hc] at h
      simp at h

/-- The C4 property of one run of WindowDiscovery, stated over the event
list `catch_windows root known children`. -/
def catchWindowsProp (root : Nat) (known : List Nat) (children : List WinAttr) : Prop :=
  (∀ w ∈ children, w.wclass = WClass.inputOnly →
      ∀ ev ∈ catch_windows root known children, ev.window ≠ w.wid)
  ∧ (∀ w ∈ children, w.wid ≠ root → w.wid ∉ known → w.wclass ≠ WClass.inputOnly →
      SynthEvent.createNotify w.wid root w.x w.y w.width w.height
          w.border_width w.override_redirect ∈ catch_windows root known children
      ∧ (SynthEvent.mapRequest root w.wid ∈ catch_windows root known children
          ↔ (w.map_state ≠ MapState.unmapped ∧ w.override_redirect = false)))
  ∧ (∀ wid, SynthEvent.mapRequest root wid ∈ catch_windows root known children →
      ∃ (l₁ : List SynthEvent) (x y : Int) (wd ht bw : Nat) (orr : Bool)
        (l₂ : List SynthEvent),
        catch_windows root known children
          = l₁ ++ SynthEvent.createNotify wid root x y wd ht bw orr
              :: SynthEvent.mapRequest root wid :: l₂)

/-- C4: 〈confirmed〉 For every child of the root window processed by
`Tilenol.catch_windows` (children having pairwise distinct window ids):
input-only windows produce no synthetic events; every other window not
known to the dispatcher and distinct from the root produces a
CreateNotify-equivalent event carrying parent, position, size, border
width and override-redirect flag; a MapRequest-equivalent event for that
window is produced exactly when its map state is not Unmapped and it is
not override-redirect; and every MapRequest-equivalent event is preceded
(immediately) by the CreateNotify-equivalent event of the same window. -/
theorem C4_thm (root : Nat) (known : List Nat) (children : List WinAttr)
    (hnd : (children.map WinAttr.wid).Nodup) :
    catchWindowsProp root known children := by
  refine ⟨?_, ?_, ?_⟩
  · intro w hw hio ev hev heq
    rcases List.mem_flatMap.mp hev with ⟨w', hw', hev'⟩
    have hwid : ev.window = w'.wid := processWindow_window hev'
    have : w' = w := List.inj_on_of_nodup_map hnd hw' hw (by rw [← hwid, heq])
    subst this
    rcases processWindow_ne_nil_iff hev' with ⟨_, hcl, _⟩
    exact hcl hio
  · intro w hw hroot hknown hio
    have hpw : processWindow root known w = emitWindow root w := by
      unfold processWindow
      rw [if_neg (by tauto), if_neg hio]
    constructor
    · exact List.mem_flatMap.mpr ⟨w, hw, by rw [hpw]; exact List.mem_cons_self _ _⟩
    · constructor
      · intro hmem
        rcases List.mem_flatMap.mp hmem with ⟨w', hw', hev'⟩
        have hwid : (SynthEvent.mapRequest root w.wid).window = w'.wid :=
          processWindow_window hev'
        have : w' = w := List.inj_on_of_nodup_map hnd hw' hw (by rw [← hwid]; rfl)
        subst this
        rcases processWindow_ne_nil_iff hev' with ⟨_, _, hemit⟩
        exact (mapRequest_mem_emitWindow hemit).2.2
      · intro hc
        refine List.mem_flatMap.mpr ⟨w, hw, ?_⟩
        rw [hpw]
        unfold emitWindow
        rw [if_pos hc]
        simp
  · intro wid hmem
    rcases List.mem_flatMap.mp hmem with ⟨w, hw, hev⟩
    rcases processWindow_ne_nil_iff hev with ⟨hskip, hcl, hemit⟩
    rcases mapRequest_mem_emitWindow hemit with ⟨_, hwid, hcond⟩
    have hpw : processWindow root known w = emitWindow root w := by
      unfold processWindow
      rw [if_neg hskip, if_neg hcl]
    have hemit2 : emitWindow root w
        = [SynthEvent.createNotify w.wid root w.x w.y w.width w.height
             w.border_width w.override_redirect,
           SynthEvent.mapRequest root w.wid] := by
      unfold emitWindow
      rw [if_pos hcond]
    rcases List.append_of_mem hw with ⟨s, t, hst⟩
    refine ⟨catch_windows root known s, w.x, w.y, w.width, w.height,
      w.border_width, w.override_redirect, catch_windows root known t, ?_⟩
    unfold catch_windows
    rw [hst, List.flatMap_append, List.flatMap_cons, hpw, hemit2, hwid]
    simp

/-- C4 witness: the property applied to a concrete window population —
one mapped ordinary window, one input-only window, one unmapped window. -/
theorem C4_witness :
    ((([⟨10, WClass.inputOutput, false, MapState.viewable, 1, 2, 30, 40, 1⟩,
        ⟨11, WClass.inputOnly, false, MapState.viewable, 0, 0, 5, 5, 0⟩,
        ⟨12, WClass.inputOutput, false, MapState.unmapped, 0, 0, 5, 5, 0⟩] :
          List WinAttr).map WinAttr.wid).Nodup) ∧
    catchWindowsProp 1 [99]
      [⟨10, WClass.inputOutput, false, MapState.viewable, 1, 2, 30, 40, 1⟩,
       ⟨11, WClass.inputOnly, false, MapState.viewable, 0, 0, 5, 5, 0⟩,
       ⟨12, WClass.inputOutput, false, MapState.unmapped, 0, 0, 5, 5, 0⟩] :=
  ⟨by decide, C4_thm 1 [99] _ (by decide)⟩

/-! ## Config.get_extension_class (config.py lines 90-119) -/

/-- A Python value found as a module attribute: either a class (its name
together with the names of the classes it is a subclass of, itself
included), or a value that is not a class at all. -/
inductive PyVal
  | cls (name : String) (ancestors : List String)
  | nonCls
  deriving Repr, DecidableEq

/-- Association-list lookup, the embedding of Python attribute/key
access. -/
def alookup {α : Type} (d : List (String × α)) (k : String) : Option α :=
  (d.find? (fun p => p.1 == k)).map (fun p => p.2)

/-- The import/attribute environment `get_extension_class` runs against:
which `tilenol.ext.*` submodules are importable (absence = ImportError)
and what attributes they and the `default_module` argument expose. -/
structure ExtEnv where
  extMods : List (String × List (String × PyVal))
  defaultMod : List (String × PyVal)
  deriving Repr, DecidableEq

/-- The warnings `get_extension_class` can log. -/
inductive Warning
  | notAvailable (name : String)
  | wrongClass
  deriving Repr, DecidableEq

/-- Python `name.split('.', 1)`: the part before the first dot, and the
rest after it. -/
def splitDot (s : String) : String × String :=
  (⟨s.toList.takeWhile (fun c => c ≠ '.')⟩,
   ⟨(s.toList.dropWhile (fun c => c ≠ '.')).tail⟩)

/-- The tail of `get_extension_class`:
`if not issubclass(res, base_class): log.warning(...); return default_value`.
Python's `issubclass` raises TypeError when `res` is not a class, and that
exception is not caught by the function — modelled as `Except.error`. -/
def capabilityCheck (res : PyVal) (base_class : String)
    (default_value : Option PyVal) : Except Unit (Option PyVal × List Warning) :=
  match res with
  | .nonCls => .error ()
  | .cls n a =>
      if a.contains base_class then .ok (some (.cls n a), [])
      else .ok (default_value, [Warning.wrongClass])

/-- Embeds `Config.get_extension_class`. The top of the source imports
`tilenol.ext.<module_name>` (None on ImportError); that binding is only
read in the plain-name branch, where it appears as the first `alookup`.
For a dotted name the source rebinds `mod` from the part before the dot
and any ImportError/AttributeError/ValueError yields a logged warning and
the default. For a plain name, a missing attribute falls back to
`default_module`, and if it is missing there too the default is returned
with no warning (config.py line 115). `getattr(None, name)` for the
attribute names in play raises AttributeError, so an unimportable
`module_name` also falls through to `default_module`. -/
def get_extension_class (env : ExtEnv) (name module_name base_class : String)
    (default_value : Option PyVal) : Except Unit (Option PyVal × List Warning) :=
  if name.toList.contains '.' then
    match alookup env.extMods (splitDot name).1 with
    | none => .ok (default_value, [Warning.notAvailable name])
    | some m =>
      match alookup m (splitDot name).2 with
      | none => .ok (default_value, [Warning.notAvailable name])
      | some res => capabilityCheck res base_class default_value
  else
    match alookup env.extMods module_name with
    | none =>
      match alookup env.defaultMod name with
      | none => .ok (default_value, [])
      | some res => capabilityCheck res base_class default_value
    | some m =>
      match alookup m name with
      | none =>
        match alookup env.defaultMod name with
        | none => .ok (default_value, [])
        | some res => capabilityCheck res base_class default_value
      | some res => capabilityCheck res base_class default_value

theorem alookup_mem {α : Type} {d : List (String × α)} {k : String} {v : α}
    (h : alookup d k = some v) : ∃ p ∈ d, p.2 = v := by
  unfold alookup at h
  cases hf : d.find? (fun p => p.1 == k) with
  | none => rw [hf] at h; simp at h
  | some p =>
    rw [hf] at h
    simp at h
    exact ⟨p, List.mem_of_find?_eq_some hf, h⟩

/-- All attribute values reachable in the environment are classes (so
`issubclass` never sees a non-class and never raises). -/
def allClasses (env : ExtEnv) : Prop :=
  (∀ p ∈ env.extMods, ∀ q ∈ p.2, q.2 ≠ PyVal.nonCls)
  ∧ (∀ q ∈ env.defaultMod, q.2 ≠ PyVal.nonCls)

instance (env : ExtEnv) : Decidable (allClasses env) :=
  inferInstanceAs (Decidable
    ((∀ p ∈ env.extMods, ∀ q ∈ p.2, q.2 ≠ PyVal.nonCls)
      ∧ (∀ q ∈ env.defaultMod, q.2 ≠ PyVal.nonCls)))

theorem capabilityCheck_of_cls (res : PyVal) (base_class : String)
    (default_value : Option PyVal) (hres : res ≠ PyVal.nonCls) :
    ∃ r ws, capabilityCheck res base_class default_value = .ok (r, ws)
      ∧ (r = default_value
          ∨ ∃ n a, r = some (PyVal.cls n a) ∧ a.contains base_class = true) := by
  cases res with
  | nonCls => exact absurd rfl hres
  | cls n a =>
    by_cases hb : a.contains base_class = true
    · refine ⟨some (.cls n a), [], ?_, Or.inr ⟨n, a, rfl, hb⟩⟩
      simp only [capabilityCheck]
      rw [if_pos hb]
    · refine ⟨default_value, [Warning.wrongClass], ?_, Or.inl rfl⟩
      simp only [capabilityCheck]
      rw [if_neg hb]

/-- C1: 〈corrected〉 If every attribute value in the environment is a
class, `Config.get_extension_class` never raises: it returns either a
class satisfying the capability check against `base_class` or the
supplied `default_value`. (Without that restriction the claim is false —
see the counterexample: a non-class attribute makes `issubclass` raise an
uncaught TypeError. Also, the plain-name path whose attribute is missing
from both modules returns the default without a logged warning.) -/
theorem C1_thm (env : ExtEnv) (name module_name base_class : String)
    (default_value : Option PyVal) (hcls : allClasses env) :
    ∃ r ws, get_extension_class env name module_name base_class default_value
        = .ok (r, ws)
      ∧ (r = default_value
          ∨ ∃ n a, r = some (PyVal.cls n a) ∧ a.contains base_class = true) := by
  have hext : ∀ {mname : String} {m : List (String × PyVal)} {aname : String}
      {res : PyVal}, alookup env.extMods mname = some m →
      alookup m aname = some res → res ≠ PyVal.nonCls := by
    intro mname m aname res hm hv
    rcases alookup_mem hm with ⟨p, hp, hp2⟩
    rcases alookup_mem hv with ⟨q, hq, hq2⟩
    exact hq2 ▸ hcls.1 p hp q (by rw [hp2]; exact hq)
  have hdef : ∀ {aname : String} {res : PyVal},
      alookup env.defaultMod aname = some res → res ≠ PyVal.nonCls := by
    intro aname res hv
    rcases alookup_mem hv with ⟨q, hq, hq2⟩
    exact hq2 ▸ hcls.2 q hq
  unfold get_extension_class
  split
  · split
    next hm => exact ⟨default_value, [Warning.notAvailable name], rfl, Or.inl rfl⟩
    next m hm =>
      split
      next hv => exact ⟨default_value, [Warning.notAvailable name], rfl, Or.inl rfl⟩
      next res hv =>
        exact capabilityCheck_of_cls res base_class default_value (hext hm hv)
  · split
    next hm =>
      split
      next hv => exact ⟨default_value, [], rfl, Or.inl rfl⟩
      next res hv =>
        exact capabilityCheck_of_cls res base_class default_value (hdef hv)
    next m hm =>
      split
      next hv =>
        split
        next hv2 => exact ⟨default_value, [], rfl, Or.inl rfl⟩
        next res hv2 =>
          exact capabilityCheck_of_cls res base_class default_value (hdef hv2)
      next res hv =>
        exact capabilityCheck_of_cls res base_class default_value (hext hm hv)

/-- An environment whose widgets module has one attribute that is not a
class: resolving it makes `issubclass` raise TypeError. -/
def cexEnv : ExtEnv := ⟨[("widgets", [("Foo", PyVal.nonCls)])], []⟩

/-- C1 counterexample: the claim as stated is false — with `Foo` bound to
a non-class value in the widgets extension module, the call raises
(the uncaught TypeError of `issubclass`) instead of returning a class or
the default. -/
theorem C1_cex :
    get_extension_class cexEnv "Foo" "widgets" "Widget" none = .error () := by
  rfl

/-- An all-classes environment used to witness C1. -/
def witEnv : ExtEnv :=
  ⟨[("widgets", [("Clock", PyVal.cls "Clock" ["Clock", "Widget"])])], []⟩

/-- C1 witness: the amended statement applied at a concrete
environment. -/
theorem C1_witness :
    allClasses witEnv ∧
    ∃ r ws, get_extension_class witEnv "Clock" "widgets" "Widget" none
        = .ok (r, ws)
      ∧ (r = none ∨ ∃ n a, r = some (PyVal.cls n a) ∧ a.contains "Widget" = true) :=
  ⟨by decide, C1_thm witEnv "Clock" "widgets" "Widget" none (by decide)⟩

/-! ## Config.rules (config.py lines 274-304) -/

/-- A raw value attached to a rule key. The compiler only dispatches on
its shape (`isinstance(v, list)` / `isinstance(v, dict)` / other), so the
payloads are kept as opaque scalars. -/
inductive RVal
  | scalar (s : String)
  | vlist (l : List String)
  | vdict (m : List (String × String))
  deriving Repr, DecidableEq

/-- Positional and keyword arguments derived from a raw value
(config.py lines 286-294): a list is positional arguments, a dict is
keyword arguments, anything else is a single positional argument. -/
def argsOf : RVal → List String × List (String × String)
  | .vlist l => (l, [])
  | .vdict m => ([], m)
  | .scalar s => ([s], [])

/-- A condition or action instantiated by the rule compiler:
`all_conditions[k](*args, **kw)` / `all_actions[k](*args, **kw)`,
recorded as the registry key with its derived arguments. -/
structure Inst where
  key : String
  args : List String
  kw : List (String × String)
  deriving Repr, DecidableEq

/-- The ways Config.rules can raise. -/
inductive RuleErr
  | notImplemented (k : String)
  | emptyActions
  | valueError
  | attributeError
  deriving Repr, DecidableEq

/-- One compiled rule yielded by Config.rules. -/
structure CompiledRule where
  subject : Option String
  conditions : List Inst
  actions : List Inst
  deriving Repr, DecidableEq

/-- `if cls == 'global': cls = None` (config.py lines 280-281). -/
def normSubject (cls : String) : Option String :=
  if cls = "global" then none else some cls

/-- The inner `for k, v in rule.items()` loop (config.py lines 285-300):
a registered condition key appends to the condition list, else a
registered action key appends to the action list, else
`raise NotImplementedError(k)`. -/
def compileItems (conds acts : List String) :
    List (String × RVal) → List Inst → List Inst
      → Except RuleErr (List Inst × List Inst)
  | [], cond, act => .ok (cond, act)
  | kv :: rest, cond, act =>
    if conds.contains kv.1 then
      compileItems conds acts rest
        (cond ++ [⟨kv.1, (argsOf kv.2).1, (argsOf kv.2).2⟩]) act
    else if acts.contains kv.1 then
      compileItems conds acts rest cond
        (act ++ [⟨kv.1, (argsOf kv.2).1, (argsOf kv.2).2⟩])
    else .error (.notImplemented kv.1)

/-- One rule: compile its items, then
`if not act: raise NotImplementedError("Empty actions ...")`
(config.py lines 301-303). -/
def compileRule (conds acts : List String) (rule : List (String × RVal)) :
    Except RuleErr (List Inst × List Inst) :=
  match compileItems conds acts rule [] [] with
  | .error e => .error e
  | .ok ca => if ca.2.isEmpty then .error .emptyActions else .ok ca

/-- The `for rule in rules` loop over one subject's rule list. -/
def compileRuleList (conds acts : List String) (subj : Option String) :
    List (List (String × RVal)) → Except RuleErr (List CompiledRule)
  | [] => .ok []
  | r :: rest =>
    match compileRule conds acts r with
    | .error e => .error e
    | .ok ca =>
      match compileRuleList conds acts subj rest with
      | .error e => .error e
      | .ok others => .ok (⟨subj, ca.1, ca.2⟩ :: others)

/-- The primary-source arm of the chain: iterate the
`self.config.get_config('rules', {}).items()` pairs in order. -/
def rulesCfg (conds acts : List String) :
    List (String × List (List (String × RVal)))
      → Except RuleErr (List CompiledRule)
  | [] => .ok []
  | p :: rest =>
    match compileRuleList conds acts (normSubject p.1) p.2 with
    | .error e => .error e
    | .ok rs =>
      match rulesCfg conds acts rest with
      | .error e => .error e
      | .ok others => .ok (rs ++ others)

/-- The embedded-data arm of the chain: `self.data.get('rules', {})` is
iterated WITHOUT `.items()` (config.py line 278), so Python yields the
mapping's keys; each key string is unpacked as `cls, rules = key`, a
ValueError unless the key has exactly two characters, in which case the
two one-character strings survive the unpack but the per-rule loop then
calls `.items()` on a character, an AttributeError. So any nonempty
embedded rules mapping raises. -/
def dataRulesStep (keys : List String) : Except RuleErr Unit :=
  match keys with
  | [] => .ok ()
  | k :: _ =>
    if k.length = 2 then .error .attributeError else .error .valueError

/-- Embeds `Config.rules`, fully materialized: the chain processes the
primary config pairs first, then the embedded-data keys. -/
def rules (conds acts : List String)
    (cfgRules : List (String × List (List (String × RVal))))
    (dataRulesKeys : List String) : Except RuleErr (List CompiledRule) :=
  match rulesCfg conds acts cfgRules with
  | .error e => .error e
  | .ok rs =>
    match dataRulesStep dataRulesKeys with
    | .error e => .error e
    | .ok _ => .ok rs

theorem compileItems_err (conds acts : List String) :
    ∀ (items : List (String × RVal)) (cond act : List Inst),
      (∃ kv ∈ items, conds.contains kv.1 = false ∧ acts.contains kv.1 = false) →
      ∃ e, compileItems conds acts items cond act = .error e := by
  intro items
  induction items with
  | nil => intro cond act hk; simp at hk
  | cons p rest ih =>
    intro cond act hk
    rcases hk with ⟨kv, hmem, hcnd, hact⟩
    rw [List.mem_cons] at hmem
    rw [compileItems]
    by_cases hc : conds.contains p.1 = true
    · rw [if_pos hc]
      rcases hmem with rfl | hmem
      · rw [hcnd] at hc; cases hc
      · exact ih _ _ ⟨kv, hmem, hcnd, hact⟩
    · rw [if_neg hc]
      by_cases ha : acts.contains p.1 = true
      · rw [if_pos ha]
        rcases hmem with rfl | hmem
        · rw [hact] at ha; cases ha
        · exact ih _ _ ⟨kv, hmem, hcnd, hact⟩
      · rw [if_neg ha]
        exact ⟨.notImplemented p.1, rfl⟩

theorem compileItems_acts (conds acts : List String) :
    ∀ (items : List (String × RVal)) (cond act : List Inst) (ca : List Inst × List Inst),
      (∀ kv ∈ items, acts.contains kv.1 = false) →
      compileItems conds acts items cond act = .ok ca →
      ca.2 = act := by
  intro items
  induction items with
  | nil =>
    intro cond act ca _ h
    rw [compileItems] at h
    cases h
    rfl
  | cons p rest ih =>
    intro cond act ca hk h
    rw [compileItems] at h
    by_cases hc : conds.contains p.1 = true
    · rw [if_pos hc] at h
      exact ih _ _ _ (fun kv hkv => hk kv (List.mem_cons_of_mem p hkv)) h
    · rw [if_neg hc] at h
      have ha : acts.contains p.1 = false := hk p (List.mem_cons_self p rest)
      rw [ha] at h
      simp at h

theorem compileRule_err (conds acts : List String) (rule : List (String × RVal))
    (h : (∃ kv ∈ rule, conds.contains kv.1 = false ∧ acts.contains kv.1 = false)
        ∨ (∀ kv ∈ rule, acts.contains kv.1 = false)) :
    ∃ e, compileRule conds acts rule = .error e := by
  unfold compileRule
  cases hci : compileItems conds acts rule [] [] with
  | error e => exact ⟨e, rfl⟩
  | ok ca =>
    rcases h with h | h
    · rcases compileItems_err conds acts rule [] [] h with ⟨e, he⟩
      rw [he] at hci
      cases hci
    · have h2 : ca.2 = [] := compileItems_acts conds acts rule [] [] ca h hci
      refine ⟨.emptyActions, ?_⟩
      show (if ca.2.isEmpty then (Except.error RuleErr.emptyActions :
              Except RuleErr (List Inst × List Inst))
            else Except.ok ca) = Except.error RuleErr.emptyActions
      rw [h2]
      rfl

theorem compileRuleList_err (conds acts : List String) (subj : Option String) :
    ∀ (rlist : List (List (String × RVal))),
      (∃ r ∈ rlist, ∃ e, compileRule conds acts r = .error e) →
      ∃ e, compileRuleList conds acts subj rlist = .error e := by
  intro rlist
  induction rlist with
  | nil => intro h; simp at h
  | cons r rest ih =>
    intro h
    rw [compileRuleList]
    cases hr : compileRule conds acts r with
    | error e => exact ⟨e, rfl⟩
    | ok ca =>
      rcases h with ⟨r', hmem, e', he'⟩
      rw [List.mem_cons] at hmem
      rcases hmem with rfl | hmem
      · rw [hr] at he'; cases he'
      · rcases ih ⟨r', hmem, e', he'⟩ with ⟨e, he⟩
        rw [he]
        exact ⟨e, rfl⟩

theorem rulesCfg_err (conds acts : List String) :
    ∀ (cfgRules : List (String × List (List (String × RVal)))),
      (∃ p ∈ cfgRules, ∃ e,
          compileRuleList conds acts (normSubject p.1) p.2 = .error e) →
      ∃ e, rulesCfg conds acts cfgRules = .error e := by
  intro cfgRules
  induction cfgRules with
  | nil => intro h; simp at h
  | cons p rest ih =>
    intro h
    rw [rulesCfg]
    cases hp : compileRuleList conds acts (normSubject p.1) p.2 with
    | error e => exact ⟨e, rfl⟩
    | ok rs =>
      rcases h with ⟨p', hmem, e', he'⟩
      rw [List.mem_cons] at hmem
      rcases hmem with rfl | hmem
      · rw [hp] at he'; cases he'
      · rcases ih ⟨p', hmem, e', he'⟩ with ⟨e, he⟩
        rw [he]
        exact ⟨e, rfl⟩

/-- C2: 〈confirmed〉 If any rule of the primary rule set contains a key
registered neither as a condition kind nor as an action kind, or any rule
has no key registered as an action kind (so its compiled action list
would be empty, conditions notwithstanding), then `Config.rules` raises —
it produces an error, not a compiled sequence with the offending rule
dropped. -/
theorem C2_thm (conds acts : List String)
    (cfgRules : List (String × List (List (String × RVal))))
    (dataRulesKeys : List String)
    (h : (∃ p ∈ cfgRules, ∃ r ∈ p.2, ∃ kv ∈ r,
            conds.contains kv.1 = false ∧ acts.contains kv.1 = false)
       ∨ (∃ p ∈ cfgRules, ∃ r ∈ p.2, ∀ kv ∈ r, acts.contains kv.1 = false)) :
    ∃ e, rules conds acts cfgRules dataRulesKeys = .error e := by
  have hcfg : ∃ e, rulesCfg conds acts cfgRules = .error e := by
    rcases h with ⟨p, hp, r, hr, hbad⟩ | ⟨p, hp, r, hr, hbad⟩
    · exact rulesCfg_err conds acts cfgRules
        ⟨p, hp, compileRuleList_err conds acts (normSubject p.1) p.2
          ⟨r, hr, compileRule_err conds acts r (Or.inl hbad)⟩⟩
    · exact rulesCfg_err conds acts cfgRules
        ⟨p, hp, compileRuleList_err conds acts (normSubject p.1) p.2
          ⟨r, hr, compileRule_err conds acts r (Or.inr hbad)⟩⟩
  rcases hcfg with ⟨e, he⟩
  unfold rules
  rw [he]
  exact ⟨e, rfl⟩

/-- C2 witness: a rule with the unknown key `bogus` next to a valid
condition and action makes compilation of a concrete rule set fail (left
disjunct), as does a rule with conditions but no actions (evaluated via
the same theorem on a second input). -/
theorem C2_witness :
    ((∃ p ∈ [("global",
        [[("title", RVal.scalar "Firefox"), ("bogus", RVal.scalar "y"),
          ("float", RVal.scalar "yes")]])], ∃ r ∈ p.2, ∃ kv ∈ r,
          (["title"] : List String).contains kv.1 = false
            ∧ (["float"] : List String).contains kv.1 = false)
      ∨ (∃ p ∈ [("global",
          [[("title", RVal.scalar "Firefox"), ("bogus", RVal.scalar "y"),
            ("float", RVal.scalar "yes")]])], ∃ r ∈ p.2, ∀ kv ∈ r,
            (["float"] : List String).contains kv.1 = false)) ∧
    ∃ e, rules ["title"] ["float"]
        [("global",
          [[("title", RVal.scalar "Firefox"), ("bogus", RVal.scalar "y"),
            ("float", RVal.scalar "yes")]])] [] = .error e :=
  ⟨Or.inl (by decide), C2_thm ["title"] ["float"] _ [] (Or.inl (by decide))⟩

/-- C7: the merge of the embedded data's rules section is broken: the
second chain argument lacks `.items()`, so a nonempty embedded rules
mapping makes `Config.rules` raise (ValueError on unpacking a key of
length ≠ 2, AttributeError otherwise) instead of contributing its
subject/rule-list pairs after the primary source's. -/
theorem C7_thm :
    rules ["title"] ["float"] [] ["xterm"] = .error RuleErr.valueError
    ∧ rules ["title"] ["float"] [] ["ab"] = .error RuleErr.attributeError := by
  constructor
  · rfl
  · rfl

/-! ## Config.gestures (config.py lines 132-165) -/

/-- A value inside a gesture settings block, a gesture mapping, or a
widget parameter mapping. -/
inductive GVal
  | vint (n : Int)
  | vstr (s : String)
  | vcmd (c : List String)
  | vbool (b : Bool)
  deriving Repr, DecidableEq

/-- A raw gesture declaration value, by the shapes the compiler
distinguishes: a plain command string, a plain command list, or a
mapping. (A raw value of any other type would raise TypeError already at
the `'action' not in v` test and is outside the model.) -/
inductive GDecl
  | cmdStr (s : String)
  | cmdList (l : List String)
  | dict (m : List (String × GVal))
  deriving Repr, DecidableEq

/-- Contiguous-sublist test, used for Python's substring operator. -/
def isSubList (pat : List Char) : List Char → Bool
  | [] => pat.isEmpty
  | x :: rest => List.isPrefixOf pat (x :: rest) || isSubList pat rest

/-- Python `pat in v`: substring test on a string, membership on a list,
key membership on a dict. -/
def hasStr : GDecl → String → Bool
  | .cmdStr s, pat => isSubList pat.toList s.toList
  | .cmdList l, pat => l.contains pat
  | .dict m, pat => m.any (fun p => p.1 == pat)

/-- The tokenizer state of Python `shlex` in POSIX mode with
`whitespace_split=True`, as driven by `shlex.split`: outside any quote,
inside a single-quoted or double-quoted section, or just after the
escape character (outside or inside a double-quoted section). -/
inductive ShState
  | normal
  | inSingle
  | inDouble
  | escNormal
  | escDouble
  deriving Repr, DecidableEq

/-- Python `shlex.split(s)` (POSIX rules, comments off), one character at
a time. Whitespace (space, tab, CR, LF) separates tokens; a
single-quoted section is literal up to the closing quote; a
double-quoted section is literal except that a backslash escapes `"` and
`\` (before any other character both are kept); outside quotes a
backslash makes the next character literal; a quoted section yields a
token even when empty. End of input inside a quoted section raises
ValueError("No closing quotation"); end of input right after an escape
character raises ValueError("No escaped character") — both modelled as
`Except.error`. -/
def shlexRun : List Char → ShState → Bool → List Char → Except Unit (List String)
  | [], st, inTok, tok =>
    match st with
    | .normal => if inTok then .ok [String.mk tok] else .ok []
    | _ => .error ()
  | c :: cs, st, inTok, tok =>
    match st with
    | .normal =>
      if c = ' ' ∨ c = '\t' ∨ c = '\r' ∨ c = '\n' then
        if inTok then
          match shlexRun cs .normal false [] with
          | .ok rest => .ok (String.mk tok :: rest)
          | .error e => .error e
        else shlexRun cs .normal false []
      else if c = '\'' then shlexRun cs .inSingle true tok
      else if c = '"' then shlexRun cs .inDouble true tok
      else if c = '\\' then shlexRun cs .escNormal true tok
      else shlexRun cs .normal true (tok ++ [c])
    | .inSingle =>
      if c = '\'' then shlexRun cs .normal true tok
      else shlexRun cs .inSingle true (tok ++ [c])
    | .inDouble =>
      if c = '"' then shlexRun cs .normal true tok
      else if c = '\\' then shlexRun cs .escDouble true tok
      else shlexRun cs .inDouble true (tok ++ [c])
    | .escNormal => shlexRun cs .normal true (tok ++ [c])
    | .escDouble =>
      if c = '"' ∨ c = '\\' then shlexRun cs .inDouble true (tok ++ [c])
      else shlexRun cs .inDouble true (tok ++ ['\\', c])

/-- Python `shlex.split`: run the tokenizer from the initial state; the
error is the ValueError it raises on an unbalanced quote or a trailing
escape character. -/
def shlexSplit (s : String) : Except Unit (List String) :=
  shlexRun s.toList .normal false []

/-- The action stored in a gesture record: `Config._command` splits a
string into tokens and passes any other value through unchanged. -/
inductive GAction
  | tokens (l : List String)
  | ofVal (v : GVal)
  | ofDecl (d : GDecl)
  deriving Repr, DecidableEq

/-- `Config._command` applied to a whole gesture declaration: only the
string case can raise (inside shlex.split). -/
def commandOfDecl : GDecl → Except Unit GAction
  | .cmdStr s =>
    match shlexSplit s with
    | .ok ts => .ok (.tokens ts)
    | .error e => .error e
  | .cmdList l => .ok (.tokens l)
  | .dict m => .ok (.ofDecl (.dict m))

/-- `Config._command` applied to a value taken out of a gesture
mapping: only the string case can raise (inside shlex.split). -/
def commandOfVal : GVal → Except Unit GAction
  | .vstr s =>
    match shlexSplit s with
    | .ok ts => .ok (.tokens ts)
    | .error e => .error e
  | .vcmd l => .ok (.tokens l)
  | v => .ok (.ofVal v)

/-- Python `d[k] = v` on a (duplicate-free) dict rendered as an
association list: an existing key keeps its position and gets the new
value, a new key is appended. -/
def dictUpd {α : Type} : List (String × α) → String → α → List (String × α)
  | [], k, v => [(k, v)]
  | p :: rest, k, v =>
    if p.1 = k then (k, v) :: rest else p :: dictUpd rest k v

/-- Python `d.update(m)`: item assignment for every pair of `m` in
order. -/
def dictUpdAll {α : Type} (d upd : List (String × α)) : List (String × α) :=
  upd.foldl (fun acc p => dictUpd acc p.1 p.2) d

/-- The error outcome of Config.gestures: the ValueError/TypeError raised
by `dict.update` on a non-mapping argument, by unpacking `k.split('-')`
into two names, by `shlex.split` on an unbalanced quote or trailing
escape, or by an impossible key lookup. -/
inductive GErr
  | typeOrValueError
  deriving Repr, DecidableEq

/-- The built-in gesture settings (config.py lines 134-138). -/
def defaultSettings : List (String × GVal) :=
  [("detect-distance", .vint 50), ("commit-distance", .vint 600),
   ("char", .vstr "▲")]

/-- `'{}f-{}'.format(fing, dir)`. -/
def mkKey (fing : Nat) (dir : String) : String :=
  ⟨(toString fing).toList ++ 'f' :: '-' :: dir.toList⟩

/-- `supported_gestures = {'{}f-{}'.format(fing, dir) for fing in
range(2, 6) for dir in directions}` (config.py lines 139-140), as a list
used only through membership. -/
def supportedGestures (directions : List String) : List String :=
  (List.range' 2 4).flatMap (fun fing => directions.map (fun dir => mkKey fing dir))

/-- Splitting a character list on a separator character (Python
`str.split`). -/
def splitOnChar (c : Char) : List Char → List (List Char)
  | [] => [[]]
  | x :: xs =>
    if x = c then [] :: splitOnChar c xs
    else
      match splitOnChar c xs with
      | [] => [[x]]
      | h :: t => (x :: h) :: t

/-- `f, dir = k.split('-')`: succeeds exactly when the key has one dash
(otherwise the unpack raises ValueError). -/
def splitDash (k : String) : Option (String × String) :=
  match splitOnChar '-' k.toList with
  | [a, b] => some (String.mk a, String.mk b)
  | _ => none

/-- One compiled gesture record: the merged settings/override fields, the
normalized action (`val['action']`), and the direction whose registered
predicate `directions[dir]` the record's condition is. -/
structure GestureRecord where
  fields : List (String × GVal)
  action : GAction
  condition : String
  deriving Repr, DecidableEq

/-- The per-gesture body of the loop (config.py lines 150-162):
split the key, build `val` from the settings and the declaration, derive
the action by the three value shapes, and attach the direction
predicate. A non-mapping value containing `action` or `=` reaches
`val.update(v)` and raises; `shlex.split` inside `_command` raises on an
unbalanced quote or trailing escape; so would a direction absent from
the registered table at `directions[dir]`. -/
def processGesture (directions : List String) (settings : List (String × GVal))
    (k : String) (v : GDecl) : Except GErr GestureRecord :=
  match splitDash k with
  | none => .error .typeOrValueError
  | some fd =>
    if directions.contains fd.2 then
      if !hasStr v "action" && !hasStr v "=" then
        match commandOfDecl v with
        | .ok a => .ok ⟨settings, a, fd.2⟩
        | .error _ => .error .typeOrValueError
      else
        match v with
        | .dict m =>
          if hasStr (.dict m) "=" then
            match alookup m "=" with
            | some ev =>
              match commandOfVal ev with
              | .ok a => .ok ⟨dictUpdAll settings m, a, fd.2⟩
              | .error _ => .error .typeOrValueError
            | none => .error .typeOrValueError
          else
            match alookup (dictUpdAll settings m) "action" with
            | some av =>
              match commandOfVal av with
              | .ok a => .ok ⟨dictUpdAll settings m, a, fd.2⟩
              | .error _ => .error .typeOrValueError
            | none => .error .typeOrValueError
        | _ => .error .typeOrValueError
    else .error .typeOrValueError

/-- The settings layering (config.py lines 143-144): overlay the optional
`settings` block onto the built-in defaults; `settings.update(v)` with a
non-mapping block raises. -/
def settingsOf (gest : List (String × GDecl)) : Except GErr (List (String × GVal)) :=
  match alookup gest "settings" with
  | none => .ok defaultSettings
  | some (.dict m) => .ok (dictUpdAll defaultSettings m)
  | some _ => .error .typeOrValueError

/-- The `for k, v in gest.items()` loop (config.py lines 146-164),
carrying the result dict and the list of `Gesture %r is not supported`
warnings (recorded as the offending keys). -/
def gestLoop (directions : List String) (settings : List (String × GVal))
    (res : List (String × GestureRecord)) (warns : List String) :
    List (String × GDecl) → Except GErr (List (String × GestureRecord) × List String)
  | [] => .ok (res, warns)
  | kv :: rest =>
    if kv.1 = "settings" then gestLoop directions settings res warns rest
    else if (supportedGestures directions).contains kv.1 then
      match processGesture directions settings kv.1 kv.2 with
      | .error e => .error e
      | .ok r => gestLoop directions settings (dictUpd res kv.1 r) warns rest
    else gestLoop directions settings res (warns ++ [kv.1]) rest

/-- Embeds `Config.gestures`: merge the file-backed gestures with the
embedded-data gestures (the latter winning key-for-key), layer the
settings, then compile each entry. -/
def gestures (directions : List String) (cfgGest dataGest : List (String × GDecl)) :
    Except GErr (List (String × GestureRecord) × List String) :=
  match settingsOf (dictUpdAll cfgGest dataGest) with
  | .error e => .error e
  | .ok settings => gestLoop directions settings [] [] (dictUpdAll cfgGest dataGest)

/-- The gesture scenario input of C8:
`{"3f-up": "spawn terminal", "settings": {"commit-distance": 400}}`. -/
def c8Input : List (String × GDecl) :=
  [("3f-up", GDecl.cmdStr "spawn terminal"),
   ("settings", GDecl.dict [("commit-distance", GVal.vint 400)])]

/-- The settings in force for the C8 scenario: defaults with the
commit distance overridden. -/
def c8Settings : List (String × GVal) :=
  [("detect-distance", GVal.vint 50), ("commit-distance", GVal.vint 400),
   ("char", GVal.vstr "▲")]

/-- C8: 〈confirmed〉 For the gesture input
`{"3f-up": "spawn terminal", "settings": {"commit-distance": 400}}` with
no embedded-data override, `Config.gestures` returns exactly one record,
at key `3f-up`, whose commit-distance is 400, whose detect-distance is
the built-in default 50, whose action is `["spawn", "terminal"]`, and
whose condition is the predicate registered for direction `up` (recorded
here as the direction tag the predicate is looked up under). -/
theorem C8_thm (directions : List String) (hup : "up" ∈ directions) :
    ∃ r, gestures directions c8Input [] = .ok ([("3f-up", r)], [])
      ∧ alookup r.fields "commit-distance" = some (GVal.vint 400)
      ∧ alookup r.fields "detect-distance" = some (GVal.vint 50)
      ∧ r.action = GAction.tokens ["spawn", "terminal"]
      ∧ r.condition = "up" := by
  have hc2 : directions.contains "up" = true := List.elem_iff.mpr hup
  have hc1 : (supportedGestures directions).contains "3f-up" = true := by
    apply List.elem_iff.mpr
    unfold supportedGestures
    exact List.mem_flatMap.mpr ⟨3, by decide, List.mem_map.mpr ⟨"up", hup, rfl⟩⟩
  have hproc : processGesture directions c8Settings "3f-up"
      (GDecl.cmdStr "spawn terminal")
      = .ok ⟨c8Settings, GAction.tokens ["spawn", "terminal"], "up"⟩ := by
    have hsplit : splitDash "3f-up" = some ("3f", "up") := rfl
    unfold processGesture
    rw [hsplit]
    simp only [hc2]
    rfl
  refine ⟨⟨c8Settings, GAction.tokens ["spawn", "terminal"], "up"⟩,
    ?_, rfl, rfl, rfl, rfl⟩
  show gestLoop directions c8Settings [] []
      (("3f-up", GDecl.cmdStr "spawn terminal")
        :: [("settings", GDecl.dict [("commit-distance", GVal.vint 400)])])
    = .ok ([("3f-up", ⟨c8Settings, GAction.tokens ["spawn", "terminal"], "up"⟩)], [])
  rw [gestLoop]
  rw [if_neg (by decide : ¬ ("3f-up" = "settings"))]
  rw [if_pos hc1, hproc]
  rfl

/-- C8 witness: the scenario evaluated with a concrete registered
direction set containing `up`. -/
theorem C8_witness :
    "up" ∈ ["up", "down", "left", "right"] ∧
    ∃ r, gestures ["up", "down", "left", "right"] c8Input []
        = .ok ([("3f-up", r)], [])
      ∧ alookup r.fields "commit-distance" = some (GVal.vint 400)
      ∧ alookup r.fields "detect-distance" = some (GVal.vint 50)
      ∧ r.action = GAction.tokens ["spawn", "terminal"]
      ∧ r.condition = "up" :=
  ⟨by decide, C8_thm ["up", "down", "left", "right"] (by decide)⟩

theorem alookup_cons {α : Type} (p : String × α) (rest : List (String × α)) (k : String) :
    alookup (p :: rest) k = if p.1 == k then some p.2 else alookup rest k := by
  unfold alookup
  cases h : (p.1 == k) <;> simp [List.find?_cons, h]

theorem alookup_dictUpd_self {α : Type} (d : List (String × α)) (k : String) (v : α) :
    alookup (dictUpd d k v) k = some v := by
  induction d with
  | nil => simp [dictUpd, alookup_cons]
  | cons p rest ih =>
    rw [dictUpd]
    by_cases h : p.1 = k
    · rw [if_pos h, alookup_cons]
      simp
    · rw [if_neg h, alookup_cons, if_neg (by simpa using h)]
      exact ih

theorem alookup_dictUpd_ne {α : Type} (d : List (String × α)) (k k' : String) (v : α)
    (hne : k' ≠ k) : alookup (dictUpd d k v) k' = alookup d k' := by
  induction d with
  | nil =>
    rw [dictUpd, alookup_cons, if_neg (by simpa using fun he => hne he.symm)]
  | cons p rest ih =>
    rw [dictUpd]
    by_cases h : p.1 = k
    · rw [if_pos h, alookup_cons, alookup_cons,
        if_neg (by simpa using fun he => hne he.symm),
        if_neg (by simp [h]; exact fun he => hne he.symm)]
    · rw [if_neg h, alookup_cons, alookup_cons, ih]

theorem any_key_exists {α : Type} (m : List (String × α)) (k : String)
    (h : m.any (fun p => p.1 == k) = true) : ∃ v, alookup m k = some v := by
  induction m with
  | nil => simp at h
  | cons p rest ih =>
    rw [alookup_cons]
    by_cases hp : (p.1 == k) = true
    · rw [if_pos hp]; exact ⟨p.2, rfl⟩
    · rw [if_neg hp]
      apply ih
      simpa [hp] using h

theorem dictUpdAll_some {α : Type} (m : List (String × α)) :
    ∀ (d : List (String × α)) (k : String),
      ((∃ p ∈ m, p.1 = k) ∨ (∃ v, alookup d k = some v)) →
      ∃ v, alookup (dictUpdAll d m) k = some v := by
  induction m with
  | nil =>
    intro d k h
    rcases h with ⟨p, hp, _⟩ | h
    · simp at hp
    · exact h
  | cons q rest ih =>
    intro d k h
    show ∃ v, alookup (dictUpdAll (dictUpd d q.1 q.2) rest) k = some v
    apply ih
    by_cases hq : q.1 = k
    · right
      exact ⟨q.2, by rw [hq]; exact alookup_dictUpd_self d k q.2⟩
    · rcases h with ⟨p, hp, hpk⟩ | ⟨v, hv⟩
      · rcases List.mem_cons.mp hp with rfl | hp
        · exact absurd hpk hq
        · exact Or.inl ⟨p, hp, hpk⟩
      · exact Or.inr ⟨v, by
          rw [alookup_dictUpd_ne d q.1 k q.2 (fun he => hq he.symm)]; exact hv⟩

theorem splitOnChar_not_mem (c : Char) (l : List Char) (h : c ∉ l) :
    splitOnChar c l = [l] := by
  induction l with
  | nil => rfl
  | cons x xs ih =>
    have hx : ¬ (x = c) := by
      intro he
      exact h (by rw [he]; exact List.mem_cons_self c xs)
    have hrest : c ∉ xs := fun hm => h (List.mem_cons_of_mem x hm)
    rw [splitOnChar, if_neg hx, ih hrest]

theorem splitOnChar_append (c : Char) (a b : List Char) (ha : c ∉ a) :
    splitOnChar c (a ++ c :: b) = a :: splitOnChar c b := by
  induction a with
  | nil =>
    simp only [List.nil_append]
    rw [splitOnChar, if_pos rfl]
  | cons x xs ih =>
    have hx : ¬ (x = c) := by
      intro he
      exact ha (by rw [he]; exact List.mem_cons_self c xs)
    have hrest : c ∉ xs := fun hm => ha (List.mem_cons_of_mem x hm)
    rw [List.cons_append, splitOnChar, if_neg hx, ih hrest]

theorem splitDash_mkKey (f : Nat) (d : String)
    (hf : ('-' : Char) ∉ (toString f).toList ++ ['f'])
    (hd : ('-' : Char) ∉ d.toList) :
    splitDash (mkKey f d)
      = some (String.mk ((toString f).toList ++ ['f']), d) := by
  unfold splitDash mkKey
  have hsh : (toString f).toList ++ 'f' :: '-' :: d.toList
      = ((toString f).toList ++ ['f']) ++ '-' :: d.toList := by simp
  rw [show (String.mk ((toString f).toList ++ 'f' :: '-' :: d.toList)).toList
      = (toString f).toList ++ 'f' :: '-' :: d.toList from rfl]
  rw [hsh, splitOnChar_append _ _ _ hf, splitOnChar_not_mem _ _ hd]
  rfl

theorem supported_mem {directions : List String} {k : String}
    (h : (supportedGestures directions).contains k = true) :
    ∃ f ∈ List.range' 2 4, ∃ d ∈ directions, k = mkKey f d := by
  have hm : k ∈ supportedGestures directions := List.elem_iff.mp h
  unfold supportedGestures at hm
  rcases List.mem_flatMap.mp hm with ⟨f, hf, hk⟩
  rcases List.mem_map.mp hk with ⟨d, hd, he⟩
  exact ⟨f, hf, d, hd, he.symm⟩

theorem range_no_dash {f : Nat} (hf : f ∈ List.range' 2 4) :
    ('-' : Char) ∉ (toString f).toList ++ ['f'] := by
  have h26 : 2 ≤ f ∧ f < 6 := by
    rcases List.mem_range'_1.mp hf with ⟨h1, h2⟩
    omega
  obtain ⟨h1, h2⟩ := h26
  interval_cases f <;> decide

theorem supported_ne_settings {directions : List String} {k : String}
    (h : (supportedGestures directions).contains k = true) : k ≠ "settings" := by
  rcases supported_mem h with ⟨f, hf, d, hd, rfl⟩
  intro he
  have hmem : ('-' : Char) ∈ (mkKey f d).toList := by
    unfold mkKey
    simp
  rw [he] at hmem
  exact absurd hmem (by decide)

/-- A gesture-mapping value on which `Config._command` does not raise: a
string accepted by `shlex.split`, or any non-string value (passed
through unchanged). -/
def cmdValOk (gv : GVal) : Bool :=
  match gv with
  | .vstr s =>
    match shlexSplit s with
    | .ok _ => true
    | .error _ => false
  | _ => true

/-- The gesture declarations Config.gestures can process without
raising: a plain command containing neither `action` nor `=` (one of
them would reach `val.update(v)`, which raises on a non-mapping) that,
if it is a string, `shlex.split` accepts; or a mapping all of whose
string values `shlex.split` accepts (its `=` or `action` entry is fed to
`_command`). -/
def wellShapedVal (v : GDecl) : Bool :=
  match v with
  | .cmdStr s =>
    (!hasStr (.cmdStr s) "action" && !hasStr (.cmdStr s) "=")
      && cmdValOk (.vstr s)
  | .cmdList l => !hasStr (.cmdList l) "action" && !hasStr (.cmdList l) "="
  | .dict m => m.all (fun p => cmdValOk p.2)

theorem commandOfVal_ok (gv : GVal) (h : cmdValOk gv = true) :
    ∃ a, commandOfVal gv = .ok a := by
  cases gv with
  | vstr s =>
    have h2 : (match shlexSplit s with
        | Except.ok (_ : List String) => true
        | Except.error _ => false) = true := h
    cases hs : shlexSplit s with
    | ok ts =>
      refine ⟨.tokens ts, ?_⟩
      show (match shlexSplit s with
        | Except.ok ts => Except.ok (GAction.tokens ts)
        | Except.error e => Except.error e) = Except.ok (GAction.tokens ts)
      rw [hs]
    | error e =>
      rw [hs] at h2
      simp at h2
  | vint n => exact ⟨_, rfl⟩
  | vcmd l => exact ⟨_, rfl⟩
  | vbool b => exact ⟨_, rfl⟩

theorem commandOfDecl_ok (v : GDecl) (h : wellShapedVal v = true) :
    ∃ a, commandOfDecl v = .ok a := by
  cases v with
  | cmdStr s =>
    have h0 : ((!hasStr (.cmdStr s) "action" && !hasStr (.cmdStr s) "=")
        && cmdValOk (.vstr s)) = true := h
    rw [Bool.and_eq_true] at h0
    have h2 : (match shlexSplit s with
        | Except.ok (_ : List String) => true
        | Except.error _ => false) = true := h0.2
    cases hs : shlexSplit s with
    | ok ts =>
      refine ⟨.tokens ts, ?_⟩
      show (match shlexSplit s with
        | Except.ok ts => Except.ok (GAction.tokens ts)
        | Except.error e => Except.error e) = Except.ok (GAction.tokens ts)
      rw [hs]
    | error e =>
      rw [hs] at h2
      simp at h2
  | cmdList l => exact ⟨_, rfl⟩
  | dict m => exact ⟨_, rfl⟩

theorem dictUpdAll_someP {α : Type} (P : α → Bool) (m : List (String × α)) :
    ∀ (d : List (String × α)) (k : String),
      (∀ p ∈ m, P p.2 = true) →
      ((∃ p ∈ m, p.1 = k) ∨ (∃ v, alookup d k = some v ∧ P v = true)) →
      ∃ v, alookup (dictUpdAll d m) k = some v ∧ P v = true := by
  induction m with
  | nil =>
    intro d k _ h
    rcases h with ⟨p, hp, _⟩ | h
    · simp at hp
    · exact h
  | cons q rest ih =>
    intro d k hP h
    show ∃ v, alookup (dictUpdAll (dictUpd d q.1 q.2) rest) k = some v ∧ P v = true
    apply ih _ _ (fun p hp => hP p (List.mem_cons_of_mem q hp))
    by_cases hq : q.1 = k
    · right
      exact ⟨q.2, (by rw [hq]; exact alookup_dictUpd_self d k q.2),
        hP q (List.mem_cons_self q rest)⟩
    · rcases h with ⟨p, hp, hpk⟩ | ⟨v, hv, hPv⟩
      · rcases List.mem_cons.mp hp with rfl | hp
        · exact absurd hpk hq
        · exact Or.inl ⟨p, hp, hpk⟩
      · exact Or.inr ⟨v, (by
          rw [alookup_dictUpd_ne d q.1 k q.2 (fun he => hq he.symm)]
          exact hv), hPv⟩

theorem processGesture_ok (directions : List String)
    (settings : List (String × GVal)) (k : String) (v : GDecl)
    (hk : (supportedGestures directions).contains k = true)
    (hdir : ∀ d ∈ directions, ('-' : Char) ∉ d.toList)
    (hv : wellShapedVal v = true) :
    ∃ r, processGesture directions settings k v = .ok r := by
  rcases supported_mem hk with ⟨f, hf, d, hd, rfl⟩
  have hsplit := splitDash_mkKey f d (range_no_dash hf) (hdir d hd)
  have hcont : directions.contains d = true := List.elem_iff.mpr hd
  unfold processGesture
  rw [hsplit]
  simp only [hcont]
  rw [if_pos True.intro]
  by_cases hb : (!hasStr v "action" && !hasStr v "=") = true
  · rw [if_pos hb]
    obtain ⟨a, hcd⟩ := commandOfDecl_ok v hv
    rw [hcd]
    exact ⟨_, rfl⟩
  · rw [if_neg hb]
    cases v with
    | cmdStr s =>
      have h0 : ((!hasStr (.cmdStr s) "action" && !hasStr (.cmdStr s) "=")
          && cmdValOk (.vstr s)) = true := hv
      rw [Bool.and_eq_true] at h0
      exact absurd h0.1 hb
    | cmdList l => exact absurd hv hb
    | dict m =>
      have hv2 : m.all (fun p => cmdValOk p.2) = true := hv
      have hall : ∀ p ∈ m, cmdValOk p.2 = true := by
        intro p hp
        have h3 := List.all_eq_true.mp hv2 p hp
        simpa using h3
      show ∃ r, (if hasStr (GDecl.dict m) "=" = true then
          match alookup m "=" with
          | some ev =>
            match commandOfVal ev with
            | .ok a =>
              Except.ok (⟨dictUpdAll settings m, a, d⟩ : GestureRecord)
            | .error _ => Except.error GErr.typeOrValueError
          | none => Except.error GErr.typeOrValueError
        else
          match alookup (dictUpdAll settings m) "action" with
          | some av =>
            match commandOfVal av with
            | .ok a =>
              Except.ok (⟨dictUpdAll settings m, a, d⟩ : GestureRecord)
            | .error _ => Except.error GErr.typeOrValueError
          | none => Except.error GErr.typeOrValueError) = Except.ok r
      by_cases heq : hasStr (.dict m) "=" = true
      · rw [if_pos heq]
        obtain ⟨ev, hev⟩ := any_key_exists m "=" heq
        obtain ⟨p, hp, hp2⟩ := alookup_mem hev
        obtain ⟨a, hca⟩ := commandOfVal_ok ev (by rw [← hp2]; exact hall p hp)
        rw [hev]
        refine ⟨⟨dictUpdAll settings m, a, d⟩, ?_⟩
        show (match commandOfVal ev with
          | Except.ok a =>
            Except.ok (⟨dictUpdAll settings m, a, d⟩ : GestureRecord)
          | Except.error _ => Except.error GErr.typeOrValueError)
          = Except.ok (⟨dictUpdAll settings m, a, d⟩ : GestureRecord)
        rw [hca]
      · rw [if_neg heq]
        have ha : hasStr (.dict m) "action" = true := by
          cases hA : hasStr (.dict m) "action" with
          | true => rfl
          | false =>
            exfalso
            apply hb
            have hB : hasStr (.dict m) "=" = false := by simpa using heq
            rw [hA, hB]
            rfl
        obtain ⟨av, hav, hPav⟩ := dictUpdAll_someP cmdValOk m settings "action"
          hall
          (Or.inl (by
            obtain ⟨p, hp, hpk⟩ := List.any_eq_true.mp ha
            exact ⟨p, hp, by simpa using hpk⟩))
        obtain ⟨a, hca⟩ := commandOfVal_ok av hPav
        rw [hav]
        refine ⟨⟨dictUpdAll settings m, a, d⟩, ?_⟩
        show (match commandOfVal av with
          | Except.ok a =>
            Except.ok (⟨dictUpdAll settings m, a, d⟩ : GestureRecord)
          | Except.error _ => Except.error GErr.typeOrValueError)
          = Except.ok (⟨dictUpdAll settings m, a, d⟩ : GestureRecord)
        rw [hca]

theorem gestLoop_ok (directions : List String) (settings : List (String × GVal))
    (hdir : ∀ d ∈ directions, ('-' : Char) ∉ d.toList) :
    ∀ (entries : List (String × GDecl)) (res : List (String × GestureRecord))
      (warns : List String),
      (∀ kv ∈ entries, kv.1 ≠ "settings" → wellShapedVal kv.2 = true) →
      ∃ res' warns',
        gestLoop directions settings res warns entries = .ok (res', warns')
        ∧ (∀ k, (supportedGestures directions).contains k = false →
            alookup res' k = alookup res k)
        ∧ (∀ w ∈ warns, w ∈ warns')
        ∧ (∀ kv ∈ entries, kv.1 ≠ "settings" →
            (supportedGestures directions).contains kv.1 = false → kv.1 ∈ warns')
        ∧ (∀ k, (supportedGestures directions).contains k = true →
            ((∃ kv ∈ entries, kv.1 = k) ∨ (∃ r, alookup res k = some r)) →
            ∃ r, alookup res' k = some r) := by
  intro entries
  induction entries with
  | nil =>
    intro res warns _
    refine ⟨res, warns, rfl, fun k _ => rfl, fun w hw => hw, ?_, ?_⟩
    · intro kv hkv
      simp at hkv
    · intro k hk hor
      rcases hor with ⟨kv, hkv, _⟩ | h
      · simp at hkv
      · exact h
  | cons kv rest ih =>
    intro res warns hwf
    rw [gestLoop]
    by_cases hset : kv.1 = "settings"
    · rw [if_pos hset]
      obtain ⟨res', warns', heq, hmono, hwmono, hwarn, hsup⟩ :=
        ih res warns (fun kv' h h2 => hwf kv' (List.mem_cons_of_mem kv h) h2)
      refine ⟨res', warns', heq, hmono, hwmono, ?_, ?_⟩
      · intro kv' hkv' hns hnsup
        rcases List.mem_cons.mp hkv' with rfl | hkv'
        · exact absurd hset hns
        · exact hwarn kv' hkv' hns hnsup
      · intro k hk hor
        apply hsup k hk
        rcases hor with ⟨kv', hkv', hkk⟩ | h
        · rcases List.mem_cons.mp hkv' with rfl | hkv'
          · exact absurd (hkk.symm.trans hset) (supported_ne_settings hk)
          · exact Or.inl ⟨kv', hkv', hkk⟩
        · exact Or.inr h
    · rw [if_neg hset]
      by_cases hks : (supportedGestures directions).contains kv.1 = true
      · rw [if_pos hks]
        obtain ⟨r0, hr0⟩ := processGesture_ok directions settings kv.1 kv.2 hks hdir
          (hwf kv (List.mem_cons_self kv rest) hset)
        rw [hr0]
        obtain ⟨res', warns', heq, hmono, hwmono, hwarn, hsup⟩ :=
          ih (dictUpd res kv.1 r0) warns
            (fun kv' h h2 => hwf kv' (List.mem_cons_of_mem kv h) h2)
        refine ⟨res', warns', heq, ?_, hwmono, ?_, ?_⟩
        · intro k hk
          rw [hmono k hk]
          exact alookup_dictUpd_ne res kv.1 k r0
            (by intro he; rw [he, hks] at hk; cases hk)
        · intro kv' hkv' hns hnsup
          rcases List.mem_cons.mp hkv' with rfl | hkv'
          · rw [hks] at hnsup; cases hnsup
          · exact hwarn kv' hkv' hns hnsup
        · intro k hk hor
          apply hsup k hk
          by_cases hkk : kv.1 = k
          · exact Or.inr ⟨r0, by rw [← hkk]; exact alookup_dictUpd_self res kv.1 r0⟩
          · rcases hor with ⟨kv', hkv', hk'⟩ | ⟨r, hr⟩
            · rcases List.mem_cons.mp hkv' with rfl | hkv'
              · exact absurd hk' hkk
              · exact Or.inl ⟨kv', hkv', hk'⟩
            · exact Or.inr ⟨r, by
                rw [alookup_dictUpd_ne res kv.1 k r0 (fun he => hkk he.symm)]
                exact hr⟩
      · rw [if_neg hks]
        obtain ⟨res', warns', heq, hmono, hwmono, hwarn, hsup⟩ :=
          ih res (warns ++ [kv.1])
            (fun kv' h h2 => hwf kv' (List.mem_cons_of_mem kv h) h2)
        refine ⟨res', warns', heq, hmono, ?_, ?_, ?_⟩
        · intro w hw
          exact hwmono w (List.mem_append_left _ hw)
        · intro kv' hkv' hns hnsup
          rcases List.mem_cons.mp hkv' with rfl | hkv'
          · exact hwmono _ (List.mem_append_right _ (by simp))
          · exact hwarn kv' hkv' hns hnsup
        · intro k hk hor
          apply hsup k hk
          rcases hor with ⟨kv', hkv', hk'⟩ | h
          · rcases List.mem_cons.mp hkv' with rfl | hkv'
            · rw [hk'] at hks; exact absurd hk hks
            · exact Or.inl ⟨kv', hkv', hk'⟩
          · exact Or.inr h

/-- C9: 〈corrected〉 For every raw gesture mapping whose declaration
values can be processed without raising (each non-settings value is a
mapping all of whose string values `shlex.split` accepts, or a plain
command containing neither `action` nor `=` that — if it is a string —
`shlex.split` accepts, i.e., with no unbalanced quote or trailing
escape; the `settings` block, when present, is a mapping) and whose
registered directions contain no dash, `Config.gestures` succeeds; every
key other than `settings` outside the supported `{2..5}f-{direction}`
set is dropped with a logged warning and gets no record, and every
supported gesture key still produces a record — an unsupported key never
aborts compilation of the rest. (Without the value-shape restriction the
claim is false: see the counterexample, where a supported key's command
string containing `=` makes the whole call raise; a command string with
an unbalanced quote would likewise raise inside `shlex.split`.) -/
theorem C9_thm (directions : List String) (cfgGest dataGest : List (String × GDecl))
    (hdir : ∀ d ∈ directions, ('-' : Char) ∉ d.toList)
    (hwf : ∀ kv ∈ dictUpdAll cfgGest dataGest, kv.1 ≠ "settings" →
      wellShapedVal kv.2 = true)
    (hset : ∃ s, settingsOf (dictUpdAll cfgGest dataGest) = .ok s) :
    ∃ res warns, gestures directions cfgGest dataGest = .ok (res, warns)
      ∧ (∀ kv ∈ dictUpdAll cfgGest dataGest, kv.1 ≠ "settings" →
          (supportedGestures directions).contains kv.1 = false →
          kv.1 ∈ warns ∧ alookup res kv.1 = none)
      ∧ (∀ kv ∈ dictUpdAll cfgGest dataGest,
          (supportedGestures directions).contains kv.1 = true →
          ∃ r, alookup res kv.1 = some r) := by
  obtain ⟨s, hs⟩ := hset
  obtain ⟨res, warns, heq, hmono, _, hwarn, hsup⟩ :=
    gestLoop_ok directions s hdir (dictUpdAll cfgGest dataGest) [] [] hwf
  refine ⟨res, warns, ?_, ?_, ?_⟩
  · unfold gestures
    rw [hs]
    exact heq
  · intro kv hkv hns hnsup
    exact ⟨hwarn kv hkv hns hnsup, by rw [hmono kv.1 hnsup]; rfl⟩
  · intro kv hkv hk
    exact hsup kv.1 hk (Or.inl ⟨kv, hkv, rfl⟩)

/-- C9 counterexample: the claim as stated is false — with the single,
well-formed gesture key `3f-up` bound to the plain command string
`run x=1` (which contains `=`), `Config.gestures` raises
(`val.update("run x=1")` is a ValueError), so the well-formed key
produces no record at all. -/
theorem C9_cex :
    gestures ["up"] [("3f-up", GDecl.cmdStr "run x=1")] []
      = .error GErr.typeOrValueError := by
  rfl

/-- C9 witness: the amended statement applied to a concrete input with
one supported key and one unsupported key. -/
theorem C9_witness :
    (∀ d ∈ ["up"], ('-' : Char) ∉ d.toList) ∧
    (∀ kv ∈ dictUpdAll
        [("3f-up", GDecl.cmdStr "spawn x"), ("7f-zig", GDecl.cmdStr "nope")]
        ([] : List (String × GDecl)),
      kv.1 ≠ "settings" → wellShapedVal kv.2 = true) ∧
    (∃ s, settingsOf (dictUpdAll
        [("3f-up", GDecl.cmdStr "spawn x"), ("7f-zig", GDecl.cmdStr "nope")]
        ([] : List (String × GDecl))) = .ok s) ∧
    (∃ res warns, gestures ["up"]
        [("3f-up", GDecl.cmdStr "spawn x"), ("7f-zig", GDecl.cmdStr "nope")] []
        = .ok (res, warns)
      ∧ (∀ kv ∈ dictUpdAll
            [("3f-up", GDecl.cmdStr "spawn x"), ("7f-zig", GDecl.cmdStr "nope")]
            ([] : List (String × GDecl)), kv.1 ≠ "settings" →
          (supportedGestures ["up"]).contains kv.1 = false →
          kv.1 ∈ warns ∧ alookup res kv.1 = none)
      ∧ (∀ kv ∈ dictUpdAll
            [("3f-up", GDecl.cmdStr "spawn x"), ("7f-zig", GDecl.cmdStr "nope")]
            ([] : List (String × GDecl)),
          (supportedGestures ["up"]).contains kv.1 = true →
          ∃ r, alookup res kv.1 = some r)) :=
  ⟨by decide, by decide, ⟨defaultSettings, rfl⟩,
    C9_thm ["up"]
      [("3f-up", GDecl.cmdStr "spawn x"), ("7f-zig", GDecl.cmdStr "nope")] []
      (by decide) (by decide) ⟨defaultSettings, rfl⟩⟩

/-! ## Config.bars (config.py lines 232-272) -/

/-- A raw widget declaration inside a bar's `right` or `left` list:
either a plain type name, or a mapping whose first item is the type name
with its constructor parameters (config.py lines 240-244 / 256-261). -/
inductive WInfo
  | name (typ : String)
  | withParams (typ : String) (params : List (String × GVal))
  deriving Repr, DecidableEq

/-- `separator = re.compile('^[-_]+$')` (config.py line 10): one or more
characters, each a dash or an underscore. -/
def isSep (typ : String) : Bool :=
  !typ.toList.isEmpty && typ.toList.all (fun c => c = '-' || c = '_')

/-- The type name of a widget declaration. -/
def winfoTyp : WInfo → String
  | .name t => t
  | .withParams t _ => t

/-- The parameters of a widget declaration (empty for a bare name). -/
def winfoParams : WInfo → List (String × GVal)
  | .name _ => []
  | .withParams _ p => p

/-- An instantiated widget `wclass(**params)`: the resolved class with
the keyword arguments passed to it. -/
structure WidgetInst where
  cls : String
  params : List (String × GVal)
  deriving Repr, DecidableEq

/-- One iteration of the right-side widget loop (config.py lines
239-254): a separator-looking type name becomes `Sep`, `params['right']
= True` is forced, the class is resolved (`resolve` abstracts
get_extension_class against the widgets module, `none` = fell through to
the default value None), and a failed resolution yields no widget. -/
def resolveRight (resolve : String → Option String) (w : WInfo) : Option WidgetInst :=
  (resolve (if isSep (winfoTyp w) then "Sep" else winfoTyp w)).map
    (fun c => ⟨c, dictUpd (winfoParams w) "right" (GVal.vbool true)⟩)

/-- One iteration of the left-side widget loop (config.py lines
255-269): as on the right but without the forced `right` parameter. -/
def resolveLeft (resolve : String → Option String) (w : WInfo) : Option WidgetInst :=
  (resolve (if isSep (winfoTyp w) then "Sep" else winfoTyp w)).map
    (fun c => ⟨c, winfoParams w⟩)

/-- The widget list `w` built for one bar by `Config.bars`: the `right`
list is consumed in reverse, then the `left` list in order; widgets whose
class fails to resolve are skipped silently. -/
def buildWidgets (resolve : String → Option String)
    (rightList leftList : List WInfo) : List WidgetInst :=
  rightList.reverse.filterMap (resolveRight resolve)
    ++ leftList.filterMap (resolveLeft resolve)

/-- C10: 〈confirmed〉 In `Config.bars`: a widget whose type name consists
entirely of `-` and `_` characters is resolved as the `Sep` widget type
(same parameters); every right-side widget that is instantiated carries
the extra parameter `right = True`; and a widget whose class fails to
resolve (resolver returns None) is silently skipped while the rest of
the bar's widgets are still built. -/
theorem C10_thm (resolve : String → Option String) (w : WInfo)
    (rights₁ rights₂ lefts₁ lefts₂ : List WInfo) :
    (isSep (winfoTyp w) = true →
      resolveRight resolve w
          = resolveRight resolve (.withParams "Sep" (winfoParams w))
        ∧ resolveLeft resolve w
          = resolveLeft resolve (.withParams "Sep" (winfoParams w)))
    ∧ (∀ c ps, resolveRight resolve w = some ⟨c, ps⟩ →
        alookup ps "right" = some (GVal.vbool true))
    ∧ (resolveRight resolve w = none →
        buildWidgets resolve (rights₁ ++ w :: rights₂) (lefts₁ ++ lefts₂)
          = buildWidgets resolve (rights₁ ++ rights₂) (lefts₁ ++ lefts₂))
    ∧ (resolveLeft resolve w = none →
        buildWidgets resolve (rights₁ ++ rights₂) (lefts₁ ++ w :: lefts₂)
          = buildWidgets resolve (rights₁ ++ rights₂) (lefts₁ ++ lefts₂)) := by
  refine ⟨?_, ?_, ?_, ?_⟩
  · intro hsep
    constructor
    · unfold resolveRight
      rw [hsep]
      rfl
    · unfold resolveLeft
      rw [hsep]
      rfl
  · intro c ps h
    unfold resolveRight at h
    cases hr : resolve (if isSep (winfoTyp w) then "Sep" else winfoTyp w) with
    | none => rw [hr] at h; cases h
    | some c' =>
      rw [hr] at h
      simp only [Option.map_some'] at h
      cases h
      exact alookup_dictUpd_self (winfoParams w) "right" (GVal.vbool true)
  · intro hnone
    unfold buildWidgets
    simp [List.reverse_append, List.filterMap_append,
      List.filterMap_cons_none hnone]
  · intro hnone
    unfold buildWidgets
    rw [List.filterMap_append, List.filterMap_append,
      List.filterMap_cons_none hnone]

/-- The concrete resolver used to witness C10: it knows the classes
`Sep` and `Clock`. -/
def wres : String → Option String :=
  fun t => if t = "Sep" ∨ t = "Clock" then some t else none

/-- C10 witness: the three behaviors applied at concrete inputs — a
separator declaration, a resolvable right-side widget, and an
unresolvable widget inside a bar that still builds. -/
theorem C10_witness :
    (isSep (winfoTyp (WInfo.name "--")) = true ∧
      resolveRight wres (WInfo.name "--")
          = resolveRight wres (.withParams "Sep" (winfoParams (WInfo.name "--")))
        ∧ resolveLeft wres (WInfo.name "--")
          = resolveLeft wres (.withParams "Sep" (winfoParams (WInfo.name "--"))))
    ∧ (resolveRight wres (WInfo.name "Clock")
          = some ⟨"Clock", [("right", GVal.vbool true)]⟩ ∧
        alookup [("right", GVal.vbool true)] "right" = some (GVal.vbool true))
    ∧ (resolveRight wres (WInfo.name "Nope") = none ∧
        buildWidgets wres ([WInfo.name "Clock"] ++ WInfo.name "Nope" :: [])
            ([] ++ [])
          = buildWidgets wres ([WInfo.name "Clock"] ++ []) ([] ++ [])) :=
  ⟨⟨by decide,
    (C10_thm wres (WInfo.name "--") [] [] [] []).1 (by decide)⟩,
   ⟨by decide,
    (C10_thm wres (WInfo.name "Clock") [] [] [] []).2.1 "Clock"
      [("right", GVal.vbool true)] (by decide)⟩,
   ⟨by decide,
    (C10_thm wres (WInfo.name "Nope") [WInfo.name "Clock"] [] [] []).2.2.1
      (by decide)⟩⟩

end Tilenol
